import Mathlib

/-! Overview.
Verification of the PPM (P6) decoder in `src/ppm/decoder.rs`.

The decoder is embedded shallowly: a byte stream is a `List Nat` (each entry a
byte value), fallible operations return `Except ImageError`, and the stateful
`BufReader` is modelled by explicit passing of the remaining stream.  The
comment-stripping `scan`/`filter` iterator pipeline plus the token-accumulation
`for` loop of `read_next_string` is embedded as the structural recursion
`readTokenLoop`; Rust's `str::parse::<u32>` (i.e. `from_str_radix` base 10,
which accepts an optional leading `+` and checks 32-bit overflow at every
accumulation step) is embedded as `parseU32`.
-/

namespace PPM

/-- Errors of the surrounding library used by this decoder
(`ImageError::FormatError`, `ImageError::DimensionError`, `ImageError::IoError`). -/
inductive ImageError
  | FormatError (msg : String)
  | DimensionError
  | IoError
deriving DecidableEq

/-- Color types of the surrounding library used by this decoder (`ColorType::RGB(depth)`). -/
inductive ColorType
  | RGB (depth : Nat)
deriving DecidableEq

/-- Result of `read_image` (`DecodingResult::U8` / `DecodingResult::U16`). -/
inductive DecodingResult
  | U8 (data : List Nat)
  | U16 (data : List Nat)
deriving DecidableEq

/-- Whitespace bytes recognized by the tokenizer: TAB, LF, VT, FF, CR, SPACE
(the `Ok(b'\t') | Ok(b'\n') | Ok(b'\x0b') | Ok(b'\x0c') | Ok(b'\r') | Ok(b' ')`
patterns in `read_next_string`). -/
def isWs (b : Nat) : Bool :=
  b == 9 || b == 10 || b == 11 || b == 12 || b == 13 || b == 32

/-- The byte loop of `read_next_string`: the `scan` state `partof` (first
argument, `true` = outside a comment), the token accumulator `bytes` (second
argument) and the remaining input (third argument).  For each input byte the
Rust code computes `cur_enabled = partof && byte != b'#'` and
`next_enabled = cur_enabled || byte == b'\r' || byte == b'\n'`; bytes with
`cur_enabled = false` are filtered out, an enabled whitespace byte is skipped
while the accumulator is empty and terminates the token otherwise, and any
other enabled byte is accumulated.  Returns the token and the unconsumed rest
of the stream. -/
def readTokenLoop : Bool → List Nat → List Nat → List Nat × List Nat
  | _, acc, [] => (acc, [])
  | partof, acc, b :: rest =>
    if partof && !(b == 35) then
      if isWs b then
        (if acc.isEmpty then readTokenLoop true acc rest else (acc, rest))
      else readTokenLoop true (acc ++ [b]) rest
    else readTokenLoop ((b == 13) || (b == 10)) acc rest

/-- `PPMDecoder::read_next_string`: run the token loop from the initial state,
then fail on an empty token ("Unexpected eof") or a token containing a
non-ASCII byte ("Non ascii character in preamble"); the conversion to UTF-8
cannot fail on ASCII bytes, so the token is returned as its list of bytes. -/
def read_next_string (s : List Nat) : Except ImageError (List Nat × List Nat) :=
  match readTokenLoop true [] s with
  | (tok, rest) =>
    if tok = [] then .error (.FormatError "Unexpected eof")
    else if ∀ b ∈ tok, b < 128 then .ok (tok, rest)
    else .error (.FormatError "Non ascii character in preamble")

/-- Largest value of Rust's `u32`. -/
def U32MAX : Nat := 4294967295

/-- Digit-accumulation loop of Rust's `from_str_radix(_, 10)` for `u32`:
each byte must be an ASCII decimal digit, and the running value is rejected as
soon as `checked_mul(10)`/`checked_add(digit)` would exceed the `u32` range. -/
def parseDigits : List Nat → Nat → Option Nat
  | [], acc => some acc
  | c :: rest, acc =>
    if 48 ≤ c ∧ c ≤ 57 then
      if acc * 10 + (c - 48) ≤ U32MAX then parseDigits rest (acc * 10 + (c - 48))
      else none
    else none

/-- Rust's `str::parse::<u32>` on an ASCII token, byte-level: an empty string
fails; a leading `+` is stripped (a `-` is not special for unsigned types and
fails as a non-digit); the remainder must be one or more decimal digits whose
accumulated value stays within the `u32` range. -/
def parseU32 (tok : List Nat) : Option Nat :=
  match tok with
  | [] => none
  | b :: rest =>
    let ds := if b == 43 then rest else b :: rest
    if ds = [] then none else parseDigits ds 0

/-- `PPMDecoder::read_next_u32`: read the next token and parse it as `u32`,
mapping a parse failure to `FormatError "Invalid number in preamble"`. -/
def read_next_u32 (s : List Nat) : Except ImageError (Nat × List Nat) :=
  match read_next_string s with
  | .error e => .error e
  | .ok (tok, rest) =>
    match parseU32 tok with
    | some v => .ok (v, rest)
    | none => .error (.FormatError "Invalid number in preamble")

/-- The decoder state `PPMDecoder { reader, width, height, maxwhite }`; the
`BufReader` is modelled by the list of not yet consumed bytes. -/
structure PPMDecoder where
  reader : List Nat
  width : Nat
  height : Nat
  maxwhite : Nat
deriving DecidableEq

/-- `PPMDecoder::new`: read the two magic bytes (fewer than two available is a
`read_exact` failure, an `IoError`), require `P3`/`P6`, reject `P3` as
unsupported, read width, height and maxwhite with `read_next_u32`, and require
`maxwhite ≤ 65535`. -/
def PPMDecoder.new (s : List Nat) : Except ImageError PPMDecoder :=
  match s with
  | m0 :: m1 :: rest =>
    if m0 ≠ 80 ∨ (m1 ≠ 51 ∧ m1 ≠ 54) then
      .error (.FormatError "Expected magic constant for ppm, P3 or P6")
    else if m1 = 51 then
      .error (.FormatError "Plain format is not yet supported")
    else
      match read_next_u32 rest with
      | .error e => .error e
      | .ok (width, r1) =>
        match read_next_u32 r1 with
        | .error e => .error e
        | .ok (height, r2) =>
          match read_next_u32 r2 with
          | .error e => .error e
          | .ok (maxwhite, r3) =>
            if ¬ (maxwhite ≤ 65535) then
              .error (.FormatError "Image maxval is not less or equal to 65535")
            else
              .ok ⟨r3, width, height, maxwhite⟩
  | _ => .error .IoError

/-- `PPMDecoder::bytewidth`: 1 byte per sample if `maxwhite < 256`, else 2. -/
def bytewidth (d : PPMDecoder) : Nat :=
  if d.maxwhite < 256 then 1 else 2

/-- `ImageDecoder::dimensions` for `PPMDecoder`: always `Ok((width, height))`. -/
def dimensions (d : PPMDecoder) : Except ImageError (Nat × Nat) :=
  .ok (d.width, d.height)

/-- `ImageDecoder::colortype` for `PPMDecoder`: RGB with depth 8 or 16 by
`bytewidth`, any other bytewidth is a defensive `FormatError`. -/
def colortype (d : PPMDecoder) : Except ImageError ColorType :=
  match bytewidth d with
  | 1 => .ok (.RGB 8)
  | 2 => .ok (.RGB 16)
  | _ => .error (.FormatError "Don't know how to decode PPM with more than 16 bits")

/-- The `BigEndian::read_u16` conversion loop of `read_image`: consecutive
non-overlapping 2-byte chunks become 16-bit samples `hi * 256 + lo`. -/
def bePairs : List Nat → List Nat
  | a :: b :: rest => (a * 256 + b) :: bePairs rest
  | _ => []

/-- The tail of `read_image` after the size computation: the raw bytes are the
result for bytewidth 1, and are regrouped into big-endian 16-bit samples for
bytewidth 2. -/
def decodePayload (data : List Nat) (bw : Nat) : DecodingResult :=
  if bw = 1 then .U8 data else .U16 (bePairs data)

/-- `ImageDecoder::read_image` for `PPMDecoder`: `width`, `height`, `3` and
`bytewidth` are multiplied with `checked_mul` (any overflow of the `u32` range
is `DimensionError`), exactly `size` bytes are read from the stream
(a short stream is the `read_exact` failure, wrapped as `IoError`), and the
bytes are converted according to `bytewidth`. -/
def read_image (d : PPMDecoder) : Except ImageError DecodingResult :=
  if d.width * d.height > U32MAX then .error .DimensionError
  else if d.width * d.height * 3 > U32MAX then .error .DimensionError
  else if d.width * d.height * 3 * bytewidth d > U32MAX then .error .DimensionError
  else
    let size := d.width * d.height * 3 * bytewidth d
    if d.reader.length < size then .error .IoError
    else .ok (decodePayload (d.reader.take size) (bytewidth d))

/-! Section: The header grammar

`CommentBlock` is one `#`-to-line-end comment: the `#` byte, a body free of CR
and LF, and one terminating CR or LF.  `CGap` is a run of comment blocks, and
`Gap` is a run of whitespace bytes and comment blocks — the material the
tokenizer consumes without contributing bytes to a token. -/

/-- A single comment: `#`, a CR/LF-free body, and a terminating CR or LF. -/
def CommentBlock (c : List Nat) : Prop :=
  ∃ body t, c = 35 :: (body ++ [t]) ∧ (∀ b ∈ body, b ≠ 13 ∧ b ≠ 10) ∧ (t = 13 ∨ t = 10)

/-- A (possibly empty) run of comment blocks. -/
inductive CGap : List Nat → Prop
  | nil : CGap []
  | comment {c g : List Nat} : CommentBlock c → CGap g → CGap (c ++ g)

/-- A (possibly empty) run of whitespace bytes and comment blocks. -/
inductive Gap : List Nat → Prop
  | nil : Gap []
  | ws {b : Nat} {g : List Nat} : isWs b = true → Gap g → Gap (b :: g)
  | comment {c g : List Nat} : CommentBlock c → Gap g → Gap (c ++ g)

/-! Section: Lemmas about the token loop -/

lemma isWs_ne_35 {b : Nat} (h : isWs b = true) : (b == 35) = false := by
  simp only [isWs, Bool.or_eq_true, beq_iff_eq] at h
  simp only [beq_eq_false_iff_ne]
  omega

/-- One whitespace byte in the enabled state: skipped on an empty accumulator,
token terminator otherwise. -/
lemma readTokenLoop_ws_step {w : Nat} (hw : isWs w = true) (acc v : List Nat) :
    readTokenLoop true acc (w :: v) =
      if acc.isEmpty then readTokenLoop true acc v else (acc, v) := by
  simp [readTokenLoop, isWs_ne_35 hw, hw]

/-- A whitespace byte terminates a non-empty token, consuming the byte. -/
lemma readTokenLoop_break {w : Nat} (hw : isWs w = true) {acc : List Nat}
    (hacc : acc ≠ []) (z : List Nat) :
    readTokenLoop true acc (w :: z) = (acc, z) := by
  rw [readTokenLoop_ws_step hw]
  simp [List.isEmpty_iff, hacc]

/-- Non-whitespace, non-`#` bytes are accumulated in the enabled state. -/
lemma readTokenLoop_push {tok : List Nat} (h : ∀ b ∈ tok, isWs b = false ∧ b ≠ 35) :
    ∀ acc z, readTokenLoop true acc (tok ++ z) = readTokenLoop true (acc ++ tok) z := by
  induction tok with
  | nil => intro acc z; simp
  | cons b rest ih =>
    intro acc z
    obtain ⟨hws, hb⟩ := h b (by simp)
    have hb' : (b == 35) = false := by simpa using hb
    simp only [List.cons_append, readTokenLoop, hb', hws, Bool.and_true, Bool.not_false,
      Bool.and_self, if_true, if_false, Bool.false_eq_true]
    rw [show (rest.append z) = rest ++ z from rfl, ih (fun x hx => h x (by simp [hx])) (acc ++ [b]) z]
    simp

/-- Bytes inside a comment body (no CR, no LF) are discarded and keep the
scanner in the comment state. -/
lemma readTokenLoop_comment_body {body : List Nat} (h : ∀ b ∈ body, b ≠ 13 ∧ b ≠ 10) :
    ∀ acc z, readTokenLoop false acc (body ++ z) = readTokenLoop false acc z := by
  induction body with
  | nil => intro acc z; simp
  | cons b rest ih =>
    intro acc z
    obtain ⟨h13, h10⟩ := h b (by simp)
    simp only [List.cons_append, readTokenLoop, Bool.false_and, Bool.false_eq_true, if_false,
      (by simpa using h13 : (b == 13) = false), (by simpa using h10 : (b == 10) = false),
      Bool.or_self]
    exact ih (fun x hx => h x (by simp [hx])) acc z

/-- A whole comment block is consumed without touching the accumulator,
returning the scanner to the enabled state. -/
lemma readTokenLoop_comment {c : List Nat} (hc : CommentBlock c) (acc z : List Nat) :
    readTokenLoop true acc (c ++ z) = readTokenLoop true acc z := by
  obtain ⟨body, t, rfl, hbody, ht⟩ := hc
  have h1 : readTokenLoop true acc ((35 :: (body ++ [t])) ++ z)
      = readTokenLoop false acc (body ++ (t :: z)) := by
    simp [readTokenLoop]
  rw [h1, readTokenLoop_comment_body hbody]
  rcases ht with rfl | rfl <;> simp [readTokenLoop]

/-- A run of comment blocks is transparent to the token loop. -/
lemma readTokenLoop_cgap {p : List Nat} (hp : CGap p) (acc z : List Nat) :
    readTokenLoop true acc (p ++ z) = readTokenLoop true acc z := by
  induction hp with
  | nil => rfl
  | comment hc _ ih => rw [List.append_assoc, readTokenLoop_comment hc, ih]

/-- A gap (whitespace and comments) before any accumulated byte is skipped. -/
lemma readTokenLoop_gap {g : List Nat} (hg : Gap g) (z : List Nat) :
    readTokenLoop true [] (g ++ z) = readTokenLoop true [] z := by
  induction hg with
  | nil => rfl
  | ws hb _ ih =>
    rename_i b g'
    rw [List.cons_append, readTokenLoop_ws_step hb]
    simpa using ih
  | comment hc _ ih => rw [List.append_assoc, readTokenLoop_comment hc, ih]

/-! Section: Prefix runs of the token loop

`loopRun p acc u` processes exactly the bytes of `u` from scanner state `p`
and accumulator `acc`; it returns the final state and accumulator, or `none`
if the loop of `read_next_string` would have terminated (token break) inside
`u`. -/

def loopRun : Bool → List Nat → List Nat → Option (Bool × List Nat)
  | p, acc, [] => some (p, acc)
  | p, acc, b :: rest =>
    if p && !(b == 35) then
      if isWs b then
        (if acc.isEmpty then loopRun true acc rest else none)
      else loopRun true (acc ++ [b]) rest
    else loopRun ((b == 13) || (b == 10)) acc rest

/-- If the loop does not break inside `u`, running it on `u ++ z` is running
it on `z` from the state and accumulator reached after `u`. -/
lemma loopRun_append : ∀ {u : List Nat} {p : Bool} {acc : List Nat} {st : Bool}
    {acc' : List Nat}, loopRun p acc u = some (st, acc') →
    ∀ z, readTokenLoop p acc (u ++ z) = readTokenLoop st acc' z := by
  intro u
  induction u with
  | nil =>
    intro p acc st acc' h z
    simp only [loopRun, Option.some.injEq, Prod.mk.injEq] at h
    obtain ⟨rfl, rfl⟩ := h
    rfl
  | cons b rest ih =>
    intro p acc st acc' h z
    by_cases hc : (p && !(b == 35)) = true
    · by_cases hw : isWs b = true
      · by_cases he : acc.isEmpty
        · simp only [loopRun, hc, hw, he, if_true] at h
          simp only [List.cons_append, readTokenLoop, hc, hw, he, if_true]
          exact ih h z
        · simp only [loopRun, hc, hw, he, if_true, if_false] at h
          simp at h
      · simp only [loopRun, hc, hw, if_true, Bool.false_eq_true, if_false] at h
        simp only [List.cons_append, readTokenLoop, hc, hw, if_true, Bool.false_eq_true, if_false]
        exact ih h z
    · simp only [loopRun, hc, Bool.false_eq_true, if_false] at h
      simp only [List.cons_append, readTokenLoop, hc, Bool.false_eq_true, if_false]
      exact ih h z

/-! Section: Lemmas about digit parsing -/

/-- The value of a digit token, as accumulated by `from_str_radix`. -/
def digitsVal (ds : List Nat) : Nat := ds.foldl (fun a b => a * 10 + (b - 48)) 0

lemma foldl_digits_mono : ∀ (ds : List Nat) (acc : Nat),
    acc ≤ ds.foldl (fun a b => a * 10 + (b - 48)) acc := by
  intro ds
  induction ds with
  | nil => intro acc; simp
  | cons c rest ih =>
    intro acc
    simp only [List.foldl_cons]
    exact le_trans (by omega) (ih (acc * 10 + (c - 48)))

lemma parseDigits_complete : ∀ (ds : List Nat) (acc : Nat),
    (∀ b ∈ ds, 48 ≤ b ∧ b ≤ 57) →
    ds.foldl (fun a b => a * 10 + (b - 48)) acc ≤ U32MAX →
    parseDigits ds acc = some (ds.foldl (fun a b => a * 10 + (b - 48)) acc) := by
  intro ds
  induction ds with
  | nil => intro acc _ _; rfl
  | cons c rest ih =>
    intro acc hd hb
    obtain ⟨h1, h2⟩ := hd c (by simp)
    simp only [List.foldl_cons] at hb
    have hstep : acc * 10 + (c - 48) ≤ U32MAX :=
      le_trans (foldl_digits_mono rest (acc * 10 + (c - 48))) hb
    simp only [parseDigits, if_pos (And.intro h1 h2), if_pos hstep, List.foldl_cons]
    exact ih (acc * 10 + (c - 48)) (fun x hx => hd x (by simp [hx])) hb

lemma parseDigits_sound : ∀ (ds : List Nat) (acc v : Nat), parseDigits ds acc = some v →
    (∀ b ∈ ds, 48 ≤ b ∧ b ≤ 57) ∧ v = ds.foldl (fun a b => a * 10 + (b - 48)) acc ∧
    (acc ≤ U32MAX → v ≤ U32MAX) := by
  intro ds
  induction ds with
  | nil =>
    intro acc v h
    simp only [parseDigits, Option.some.injEq] at h
    exact ⟨by simp, h.symm, fun ha => h ▸ ha⟩
  | cons c rest ih =>
    intro acc v h
    by_cases hd : 48 ≤ c ∧ c ≤ 57
    · by_cases hs : acc * 10 + (c - 48) ≤ U32MAX
      · simp only [parseDigits, if_pos hd, if_pos hs] at h
        obtain ⟨ih1, ih2, ih3⟩ := ih (acc * 10 + (c - 48)) v h
        refine ⟨?_, ?_, fun _ => ih3 hs⟩
        · intro b hb
          rcases List.mem_cons.mp hb with rfl | hb
          · exact hd
          · exact ih1 b hb
        · simpa using ih2
      · simp only [parseDigits, if_pos hd, if_neg hs] at h
        exact absurd h (by simp)
    · simp only [parseDigits, if_neg hd] at h
      exact absurd h (by simp)

/-- A non-empty all-digit token parses to its decimal value when that value is
within the `u32` range. -/
lemma parseU32_digits {tok : List Nat} (h : tok ≠ [])
    (hd : ∀ b ∈ tok, 48 ≤ b ∧ b ≤ 57) (hv : digitsVal tok ≤ U32MAX) :
    parseU32 tok = some (digitsVal tok) := by
  match tok, h with
  | d :: rest, _ =>
    have hdig := hd d (by simp)
    have h43 : (d == 43) = false := by
      simp only [beq_eq_false_iff_ne]
      omega
    simp only [parseU32, h43, Bool.false_eq_true, if_false, List.cons_ne_self,
      reduceCtorEq, if_neg (List.cons_ne_nil d rest)]
    exact parseDigits_complete (d :: rest) 0 hd hv

/-- Decimal digits are neither whitespace nor `#`. -/
lemma digit_plain {b : Nat} (h : 48 ≤ b ∧ b ≤ 57) : isWs b = false ∧ b ≠ 35 := by
  constructor
  · simp only [isWs, Bool.or_eq_false_iff, beq_eq_false_iff_ne]
    omega
  · omega

/-! Section: Reading one well-formed token -/

/-- A gap, a plain non-empty token, trailing comments and one whitespace
terminator: the loop returns exactly the token and the bytes after the
terminator. -/
lemma readTokenLoop_wellformed {g p tok : List Nat} {w : Nat} (hg : Gap g)
    (htok : tok ≠ []) (hbytes : ∀ b ∈ tok, isWs b = false ∧ b ≠ 35)
    (hp : CGap p) (hw : isWs w = true) (z : List Nat) :
    readTokenLoop true [] (g ++ (tok ++ (p ++ w :: z))) = (tok, z) := by
  rw [readTokenLoop_gap hg, readTokenLoop_push hbytes, List.nil_append,
    readTokenLoop_cgap hp, readTokenLoop_break hw htok]

/-- `read_next_u32` on a well-formed digit-token segment. -/
lemma read_next_u32_wellformed {g p tok : List Nat} {w : Nat} (hg : Gap g)
    (htok : tok ≠ []) (hd : ∀ b ∈ tok, 48 ≤ b ∧ b ≤ 57)
    (hv : digitsVal tok ≤ U32MAX) (hp : CGap p) (hw : isWs w = true) (z : List Nat) :
    read_next_u32 (g ++ (tok ++ (p ++ w :: z))) = .ok (digitsVal tok, z) := by
  have hascii : ∀ b ∈ tok, b < 128 := fun b hb => by have := hd b hb; omega
  unfold read_next_u32 read_next_string
  rw [readTokenLoop_wellformed hg htok (fun b hb => digit_plain (hd b hb)) hp hw]
  simp only [if_neg htok, if_pos hascii, parseU32_digits htok hd hv]

/-! Section: The full well-formed header -/

/-- `PPMDecoder::new` on a fully well-formed `P6` stream: magic bytes, three
digit tokens, each preceded by a gap and followed by trailing comments and a
single whitespace terminator, then the payload.  Construction succeeds with
the three parsed values and the payload as the unread stream. -/
lemma new_wellformed {g1 p1 g2 p2 g3 p3 t1 t2 t3 payload : List Nat}
    {w1 w2 w3 : Nat}
    (hg1 : Gap g1) (hp1 : CGap p1) (hw1 : isWs w1 = true)
    (hg2 : Gap g2) (hp2 : CGap p2) (hw2 : isWs w2 = true)
    (hg3 : Gap g3) (hp3 : CGap p3) (hw3 : isWs w3 = true)
    (ht1 : t1 ≠ []) (hd1 : ∀ b ∈ t1, 48 ≤ b ∧ b ≤ 57) (hv1 : digitsVal t1 ≤ U32MAX)
    (ht2 : t2 ≠ []) (hd2 : ∀ b ∈ t2, 48 ≤ b ∧ b ≤ 57) (hv2 : digitsVal t2 ≤ U32MAX)
    (ht3 : t3 ≠ []) (hd3 : ∀ b ∈ t3, 48 ≤ b ∧ b ≤ 57) (hv3 : digitsVal t3 ≤ U32MAX)
    (hm : digitsVal t3 ≤ 65535) :
    PPMDecoder.new (80 :: 54 :: (g1 ++ (t1 ++ (p1 ++ w1 ::
        (g2 ++ (t2 ++ (p2 ++ w2 :: (g3 ++ (t3 ++ (p3 ++ w3 :: payload)))))))))) =
      .ok ⟨payload, digitsVal t1, digitsVal t2, digitsVal t3⟩ := by
  simp only [PPMDecoder.new]
  rw [if_neg (by omega), if_neg (by omega), read_next_u32_wellformed hg1 ht1 hd1 hv1 hp1 hw1]
  dsimp only
  rw [read_next_u32_wellformed hg2 ht2 hd2 hv2 hp2 hw2]
  dsimp only
  rw [read_next_u32_wellformed hg3 ht3 hd3 hv3 hp3 hw3]
  dsimp only
  rw [if_neg (by omega)]

/-! Section: The header parse as a list of `read_next_u32` calls -/

/-- `parseN n s` performs `n` consecutive `read_next_u32` calls, returning the
parsed values and the remaining stream.  `parseN 3` is exactly the header
parse of `PPMDecoder::new` after the magic bytes. -/
def parseN : Nat → List Nat → Except ImageError (List Nat × List Nat)
  | 0, s => .ok ([], s)
  | n + 1, s =>
    match read_next_u32 s with
    | .error e => .error e
    | .ok (v, r) =>
      match parseN n r with
      | .error e => .error e
      | .ok (vs, r') => .ok (v :: vs, r')

/-- The continuation of `PPMDecoder::new` after the three header reads:
the `maxwhite ≤ 65535` check and the construction of the decoder state. -/
def newCont : Except ImageError (List Nat × List Nat) → Except ImageError PPMDecoder
  | .error e => .error e
  | .ok ([w, h, m], r) =>
    if ¬ (m ≤ 65535) then .error (.FormatError "Image maxval is not less or equal to 65535")
    else .ok ⟨r, w, h, m⟩
  | .ok (_, _) => .error .IoError

/-- `PPMDecoder::new` on a stream with valid `P6` magic is the continuation
`newCont` applied to the three-call header parse. -/
lemma new_of_parseN (s : List Nat) :
    PPMDecoder.new (80 :: 54 :: s) = newCont (parseN 3 s) := by
  simp only [PPMDecoder.new]
  rw [if_neg (by omega), if_neg (by omega)]
  cases h1 : read_next_u32 s with
  | error e => simp [parseN, h1, newCont]
  | ok vr1 =>
    obtain ⟨v1, r1⟩ := vr1
    cases h2 : read_next_u32 r1 with
    | error e => simp [parseN, h1, h2, newCont]
    | ok vr2 =>
      obtain ⟨v2, r2⟩ := vr2
      cases h3 : read_next_u32 r2 with
      | error e => simp [parseN, h1, h2, h3, newCont]
      | ok vr3 =>
        obtain ⟨v3, r3⟩ := vr3
        simp [parseN, h1, h2, h3, newCont]

/-! Section: Positions in the header region with the scanner in `Normal` state

`NormalAt n u` states that, with `n` header reads (`read_next_u32` calls)
still to perform, the byte position right after the prefix `u` lies inside
the region those calls consume, with the comment scanner in its enabled
(`Normal`, not-in-comment) state: either the current call is still in
progress after `u` with scanner state `true`, or an initial segment `u1` of
`u` is consumed exactly by one complete call (for every continuation) and the
position lies in the region of the remaining calls. -/
inductive NormalAt : Nat → List Nat → Prop
  | inProgress {n : Nat} {u : List Nat} {acc : List Nat} :
      loopRun true [] u = some (true, acc) → NormalAt (n + 1) u
  | completed {n : Nat} {u1 u2 tok : List Nat} :
      (∀ z, readTokenLoop true [] (u1 ++ z) = (tok, z)) →
      NormalAt n u2 → NormalAt (n + 1) (u1 ++ u2)

/-- Outcome of one `read_next_u32` call whose tokenization yielded `tok` and
left `y` unconsumed, followed by `n` further calls on `y`. -/
def tokStep (tok : List Nat) (n : Nat) (y : List Nat) :
    Except ImageError (List Nat × List Nat) :=
  if tok = [] then .error (.FormatError "Unexpected eof")
  else if ∀ b ∈ tok, b < 128 then
    match parseU32 tok with
    | some val =>
      match parseN n y with
      | .error e => .error e
      | .ok (vs, r') => .ok (val :: vs, r')
    | none => .error (.FormatError "Invalid number in preamble")
  else .error (.FormatError "Non ascii character in preamble")

lemma tokStep_congr {tok : List Nat} {n : Nat} {y1 y2 : List Nat}
    (h : parseN n y1 = parseN n y2) : tokStep tok n y1 = tokStep tok n y2 := by
  unfold tokStep
  rw [h]

/-- If one tokenization call consumes exactly `u1` producing `tok`, the
`n + 1`-call parse of `u1 ++ y` is `tokStep tok n y`. -/
lemma parseN_succ_completed {u1 tok : List Nat}
    (hcall : ∀ z, readTokenLoop true [] (u1 ++ z) = (tok, z)) (n : Nat) (y : List Nat) :
    parseN (n + 1) (u1 ++ y) = tokStep tok n y := by
  have hs : read_next_string (u1 ++ y) =
      (if tok = [] then .error (.FormatError "Unexpected eof")
       else if ∀ b ∈ tok, b < 128 then .ok (tok, y)
       else .error (.FormatError "Non ascii character in preamble")) := by
    unfold read_next_string
    rw [hcall y]
  by_cases h0 : tok = []
  · simp only [parseN, read_next_u32, hs, if_pos h0, tokStep]
  · by_cases h1 : ∀ b ∈ tok, b < 128
    · simp only [parseN, read_next_u32, hs, if_neg h0, if_pos h1, tokStep]
      cases hp : parseU32 tok <;> simp only []
    · simp only [parseN, read_next_u32, hs, if_neg h0, if_neg h1, tokStep]

/-- Deleting a comment block at a `Normal`-state position inside the header
region does not change the result of the remaining header reads. -/
lemma parseN_comment_congr {n : Nat} {u : List Nat} (h : NormalAt n u)
    {c : List Nat} (hc : CommentBlock c) (v : List Nat) :
    parseN n (u ++ (c ++ v)) = parseN n (u ++ v) := by
  induction h with
  | inProgress hrun =>
    rename_i m u' acc
    have hs : read_next_u32 (u' ++ (c ++ v)) = read_next_u32 (u' ++ v) := by
      unfold read_next_u32 read_next_string
      rw [loopRun_append hrun (c ++ v), loopRun_append hrun v, readTokenLoop_comment hc]
    simp only [parseN, hs]
  | completed hcall hrest ih =>
    rw [List.append_assoc, List.append_assoc, parseN_succ_completed hcall,
      parseN_succ_completed hcall]
    exact tokStep_congr ih

/-- Replacing a whitespace byte at a `Normal`-state position inside the header
region by any other whitespace byte does not change the result of the
remaining header reads. -/
lemma parseN_ws_congr {n : Nat} {u : List Nat} (h : NormalAt n u)
    {w w' : Nat} (hw : isWs w = true) (hw' : isWs w' = true) (v : List Nat) :
    parseN n (u ++ w :: v) = parseN n (u ++ w' :: v) := by
  induction h with
  | inProgress hrun =>
    rename_i m u' acc
    have hs : read_next_u32 (u' ++ w :: v) = read_next_u32 (u' ++ w' :: v) := by
      unfold read_next_u32 read_next_string
      rw [loopRun_append hrun (w :: v), loopRun_append hrun (w' :: v),
        readTokenLoop_ws_step hw, readTokenLoop_ws_step hw']
    simp only [parseN, hs]
  | completed hcall hrest ih =>
    rw [List.append_assoc, List.append_assoc, parseN_succ_completed hcall,
      parseN_succ_completed hcall]
    exact tokStep_congr ih

/-! Section: Lemmas about the pixel materializer -/

lemma bytewidth_cases (d : PPMDecoder) : bytewidth d = 1 ∨ bytewidth d = 2 := by
  unfold bytewidth
  by_cases h : d.maxwhite < 256
  · exact Or.inl (if_pos h)
  · exact Or.inr (if_neg h)

lemma bePairs_length : ∀ l : List Nat, (bePairs l).length = l.length / 2
  | [] => rfl
  | [_] => by simp [bePairs]
  | _ :: _ :: rest => by
    simp only [bePairs, List.length_cons, bePairs_length rest]
    omega

lemma bePairs_getD : ∀ (l : List Nat) (i : Nat), 2 * i + 1 < l.length →
    (bePairs l).getD i 0 = 256 * l.getD (2 * i) 0 + l.getD (2 * i + 1) 0
  | [], i, h => by simp at h
  | [_], i, h => by
    simp only [List.length_cons, List.length_nil] at h
    omega
  | a :: b :: rest, 0, h => by simp [bePairs, Nat.mul_comm]
  | a :: b :: rest, i + 1, h => by
    have hr : 2 * i + 1 < rest.length := by
      simp only [List.length_cons] at h
      omega
    have h2 : 2 * (i + 1) = (2 * i + 1) + 1 := by omega
    rw [h2]
    simp only [bePairs, List.getD_cons_succ]
    exact bePairs_getD rest i hr

lemma getD_take {l : List Nat} {n i : Nat} (h : i < n) :
    (l.take n).getD i 0 = l.getD i 0 := by
  simp [List.getD_eq_getElem?_getD, List.getElem?_take_of_lt h]

/-- When the size computation stays within the `u32` range, `read_image`
reads exactly `width * height * 3 * bytewidth` bytes. -/
lemma read_image_ok {d : PPMDecoder}
    (hs : d.width * d.height * 3 * bytewidth d ≤ U32MAX)
    (hl : d.width * d.height * 3 * bytewidth d ≤ d.reader.length) :
    read_image d =
      .ok (decodePayload (d.reader.take (d.width * d.height * 3 * bytewidth d)) (bytewidth d)) := by
  have hbw : 0 < bytewidth d := by
    rcases bytewidth_cases d with h | h <;> omega
  have h3 : ¬ (d.width * d.height * 3 * bytewidth d > U32MAX) := by omega
  have h2 : ¬ (d.width * d.height * 3 > U32MAX) := by
    have := Nat.le_mul_of_pos_right (d.width * d.height * 3) hbw
    omega
  have h1 : ¬ (d.width * d.height > U32MAX) := by
    have ha : d.width * d.height ≤ d.width * d.height * 3 :=
      Nat.le_mul_of_pos_right (d.width * d.height) (by omega)
    omega
  unfold read_image
  rw [if_neg h1, if_neg h2, if_neg h3, if_neg (by omega)]

/-- When the size computation stays within the `u32` range but the stream is
too short, `read_image` fails with `IoError`. -/
lemma read_image_short {d : PPMDecoder}
    (hs : d.width * d.height * 3 * bytewidth d ≤ U32MAX)
    (hl : d.reader.length < d.width * d.height * 3 * bytewidth d) :
    read_image d = .error .IoError := by
  have hbw : 0 < bytewidth d := by
    rcases bytewidth_cases d with h | h <;> omega
  have h3 : ¬ (d.width * d.height * 3 * bytewidth d > U32MAX) := by omega
  have h2 : ¬ (d.width * d.height * 3 > U32MAX) := by
    have := Nat.le_mul_of_pos_right (d.width * d.height * 3) hbw
    omega
  have h1 : ¬ (d.width * d.height > U32MAX) := by
    have ha : d.width * d.height ≤ d.width * d.height * 3 :=
      Nat.le_mul_of_pos_right (d.width * d.height) (by omega)
    omega
  unfold read_image
  rw [if_neg h1, if_neg h2, if_neg h3, if_pos hl]

/-- Every error produced by `read_next_string` is a `FormatError`. -/
lemma read_next_string_error {s : List Nat} {e : ImageError}
    (h : read_next_string s = .error e) : ∃ m, e = ImageError.FormatError m := by
  unfold read_next_string at h
  rcases hr : readTokenLoop true [] s with ⟨tok, rest⟩
  rw [hr] at h
  dsimp only at h
  by_cases h0 : tok = []
  · rw [if_pos h0] at h
    injection h with h
    exact ⟨"Unexpected eof", h.symm⟩
  · rw [if_neg h0] at h
    by_cases h1 : ∀ b ∈ tok, b < 128
    · rw [if_pos h1] at h
      exact absurd h (by simp)
    · rw [if_neg h1] at h
      injection h with h
      exact ⟨"Non ascii character in preamble", h.symm⟩

/-! Section: Claims -/

/-- C4 (counterexample): the token `"+1"` contains the sign character `+`
(byte 43), yet `read_next_u32` succeeds on it with value 1, because Rust's
`str::parse::<u32>` accepts an optional leading `+`.  This refutes the claim
that any token containing a sign character fails numeric parsing. -/
theorem c4_counterexample :
    read_next_string [43, 49, 32] = .ok ([43, 49], [])
    ∧ 43 ∈ [43, 49]
    ∧ read_next_u32 [43, 49, 32] = .ok (1, []) :=
  ⟨rfl, by decide, rfl⟩

/-- C4 (amended): `parseU32` (the numeric-parsing step of `read_next_u32`)
succeeds exactly on tokens consisting of an optional single leading `+`
(byte 43) followed by one or more ASCII decimal digits whose value fits in 32
unsigned bits, returning that value; and every failure of `read_next_u32` is
reported as a `FormatError`. -/
theorem c4_strict_decimal_amended :
    (∀ tok v, parseU32 tok = some v ↔
      ∃ ds, (tok = ds ∨ tok = 43 :: ds) ∧ ds ≠ [] ∧ (∀ b ∈ ds, 48 ≤ b ∧ b ≤ 57)
        ∧ digitsVal ds = v ∧ v ≤ U32MAX)
    ∧ (∀ s e, read_next_u32 s = .error e → ∃ m, e = ImageError.FormatError m) := by
  constructor
  · intro tok v
    constructor
    · intro h
      match tok with
      | [] => exact absurd h (by simp [parseU32])
      | b :: rest =>
        by_cases hb : (b == 43) = true
        · simp only [parseU32, hb, if_true] at h
          by_cases hr : rest = []
          · rw [if_pos hr] at h
            exact absurd h (by simp)
          · rw [if_neg hr] at h
            obtain ⟨hd, hv, hle⟩ := parseDigits_sound rest 0 v h
            exact ⟨rest, Or.inr (by rw [show b = 43 from by simpa using hb]),
              hr, hd, hv.symm, hle (by simp [U32MAX])⟩
        · simp only [parseU32, hb, Bool.false_eq_true, if_false,
            if_neg (List.cons_ne_nil b rest)] at h
          obtain ⟨hd, hv, hle⟩ := parseDigits_sound (b :: rest) 0 v h
          exact ⟨b :: rest, Or.inl rfl, List.cons_ne_nil b rest, hd, hv.symm,
            hle (by simp [U32MAX])⟩
    · rintro ⟨ds, hds, hne, hdig, hval, hle⟩
      have hparse : parseU32 ds = some v := by
        rw [← hval]
        exact parseU32_digits hne hdig (le_of_eq_of_le hval hle)
      rcases hds with rfl | rfl
      · exact hparse
      · match ds, hne with
        | d :: rest, _ =>
          have hu : parseU32 (43 :: d :: rest) = parseDigits (d :: rest) 0 := by
            simp [parseU32]
          rw [hu, ← hval]
          exact parseDigits_complete (d :: rest) 0 hdig (le_of_eq_of_le hval hle)
  · intro s e h
    unfold read_next_u32 at h
    cases hs : read_next_string s with
    | error e' =>
      rw [hs] at h
      injection h with h
      exact h ▸ read_next_string_error hs
    | ok tr =>
      obtain ⟨tok, rest⟩ := tr
      rw [hs] at h
      dsimp only at h
      cases hp : parseU32 tok with
      | some val => rw [hp] at h; exact absurd h (by simp)
      | none =>
        rw [hp] at h
        injection h with h
        exact ⟨"Invalid number in preamble", h.symm⟩

/-- C4 (witness): the amended theorem applied at the empty stream, whose
`read_next_u32` fails, showing the failure is a `FormatError`. -/
theorem c4_strict_decimal_amended_witness :
    ∃ m, ImageError.FormatError "Unexpected eof" = ImageError.FormatError m :=
  c4_strict_decimal_amended.2 [] (ImageError.FormatError "Unexpected eof") rfl

/-- C5 (counterexample): the stream `"P6 1 1 0 "` followed by three payload
bytes has a maxval token parsing to exactly 0, yet decoder construction
succeeds and produces a decoder state with `maxwhite = 0`.  This refutes the
claim that header validation enforces `0 < maxval`. -/
theorem c5_counterexample :
    PPMDecoder.new [80, 54, 32, 49, 32, 49, 32, 48, 32, 1, 2, 3] =
      .ok ⟨[1, 2, 3], 1, 1, 0⟩ := rfl

/-- C5 (amended): header validation enforces only the upper bound
`maxval ≤ 65535`; for every stream whose header parses with maxval exactly 0,
decoder construction succeeds, yielding a decoder state with `maxwhite = 0`
(whose sample width is 1 byte). -/
theorem c5_maxval_zero_amended (s : List Nat) (w h : Nat) (rest : List Nat)
    (hp : parseN 3 s = .ok ([w, h, 0], rest)) :
    PPMDecoder.new (80 :: 54 :: s) = .ok ⟨rest, w, h, 0⟩
    ∧ bytewidth ⟨rest, w, h, 0⟩ = 1 := by
  constructor
  · rw [new_of_parseN, hp]
    simp [newCont]
  · rfl

/-- C5 (witness): the amended theorem applied to the header `" 1 1 0 "`. -/
theorem c5_maxval_zero_amended_witness :
    PPMDecoder.new [80, 54, 32, 49, 32, 49, 32, 48, 32, 9, 9] = .ok ⟨[9, 9], 1, 1, 0⟩
    ∧ bytewidth ⟨[9, 9], 1, 1, 0⟩ = 1 :=
  c5_maxval_zero_amended [32, 49, 32, 49, 32, 48, 32, 9, 9] 1 1 [9, 9] rfl

/-- C6: for a stream whose header parses with maxval `m`, construction fails
for `m = 65536`, succeeds with sample width 2 for `m = 65535`, succeeds with
sample width 1 for `m = 255`; and in general the sample width is 1 exactly
when `maxwhite < 256` and 2 exactly when `256 ≤ maxwhite`. -/
theorem c6_maxval_bounds :
    (∀ s w h m rest, parseN 3 s = .ok ([w, h, m], rest) →
      ((m = 65536 → PPMDecoder.new (80 :: 54 :: s) =
          .error (.FormatError "Image maxval is not less or equal to 65535"))
       ∧ (m = 65535 → PPMDecoder.new (80 :: 54 :: s) = .ok ⟨rest, w, h, m⟩
            ∧ bytewidth ⟨rest, w, h, m⟩ = 2)
       ∧ (m = 255 → PPMDecoder.new (80 :: 54 :: s) = .ok ⟨rest, w, h, m⟩
            ∧ bytewidth ⟨rest, w, h, m⟩ = 1)))
    ∧ (∀ d : PPMDecoder, (bytewidth d = 1 ↔ d.maxwhite < 256)
        ∧ (bytewidth d = 2 ↔ 256 ≤ d.maxwhite)) := by
  constructor
  · intro s w h m rest hp
    refine ⟨fun hm => ?_, fun hm => ?_, fun hm => ?_⟩ <;> subst hm <;>
      rw [new_of_parseN, hp] <;> norm_num [newCont, bytewidth]
  · intro d
    rcases Nat.lt_or_ge d.maxwhite 256 with h | h
    · rw [show bytewidth d = 1 from if_pos h]
      exact ⟨⟨fun _ => h, fun _ => rfl⟩,
        ⟨fun h1 => absurd h1 (by omega), fun h2 => absurd h (by omega)⟩⟩
    · rw [show bytewidth d = 2 from if_neg (by omega)]
      exact ⟨⟨fun h1 => absurd h1 (by omega), fun h2 => absurd h (by omega)⟩,
        ⟨fun _ => h, fun _ => rfl⟩⟩

/-- C6 (witness): the three boundary maxval values 65536, 65535, 255 on
concrete headers `" 1 1 <m> "`. -/
theorem c6_maxval_bounds_witness :
    PPMDecoder.new [80, 54, 32, 49, 32, 49, 32, 54, 53, 53, 51, 54, 32] =
      .error (.FormatError "Image maxval is not less or equal to 65535")
    ∧ (PPMDecoder.new [80, 54, 32, 49, 32, 49, 32, 54, 53, 53, 51, 53, 32] =
        .ok ⟨[], 1, 1, 65535⟩ ∧ bytewidth ⟨[], 1, 1, 65535⟩ = 2)
    ∧ (PPMDecoder.new [80, 54, 32, 49, 32, 49, 32, 50, 53, 53, 32] =
        .ok ⟨[], 1, 1, 255⟩ ∧ bytewidth ⟨[], 1, 1, 255⟩ = 1) :=
  ⟨(c6_maxval_bounds.1 [32, 49, 32, 49, 32, 54, 53, 53, 51, 54, 32] 1 1 65536 [] rfl).1 rfl,
   (c6_maxval_bounds.1 [32, 49, 32, 49, 32, 54, 53, 53, 51, 53, 32] 1 1 65535 [] rfl).2.1 rfl,
   (c6_maxval_bounds.1 [32, 49, 32, 49, 32, 50, 53, 53, 32] 1 1 255 [] rfl).2.2 rfl⟩

/-- C7: `read_image` computes the byte count as `width * height`, then `* 3`,
then `* bytewidth`, each checked against the `u32` range: an overflow at any
step yields `DimensionError`, and without overflow the byte count used is the
exact product `width * height * 3 * bytewidth`. -/
theorem c7_checked_size (d : PPMDecoder) :
    ((d.width * d.height > U32MAX ∨ d.width * d.height * 3 > U32MAX
        ∨ d.width * d.height * 3 * bytewidth d > U32MAX) →
      read_image d = .error .DimensionError)
    ∧ (d.width * d.height * 3 * bytewidth d ≤ U32MAX →
      read_image d =
        if d.reader.length < d.width * d.height * 3 * bytewidth d then .error .IoError
        else .ok (decodePayload
          (d.reader.take (d.width * d.height * 3 * bytewidth d)) (bytewidth d))) := by
  constructor
  · intro hovf
    unfold read_image
    by_cases h1 : d.width * d.height > U32MAX
    · rw [if_pos h1]
    · rw [if_neg h1]
      by_cases h2 : d.width * d.height * 3 > U32MAX
      · rw [if_pos h2]
      · rw [if_neg h2]
        rcases hovf with h | h | h
        · exact absurd h h1
        · exact absurd h h2
        · rw [if_pos h]
  · intro hs
    rcases Nat.lt_or_ge d.reader.length (d.width * d.height * 3 * bytewidth d) with hl | hl
    · rw [read_image_short hs hl, if_pos hl]
    · rw [read_image_ok hs hl, if_neg (by omega)]

/-- C7 (witness): a decoder whose `width * height` overflows the `u32` range
fails with `DimensionError`; one without overflow reads its exact payload. -/
theorem c7_checked_size_witness :
    read_image ⟨[], 65536, 65536, 255⟩ = .error .DimensionError
    ∧ read_image ⟨[1, 2, 3], 1, 1, 255⟩ = .ok (.U8 [1, 2, 3]) :=
  ⟨(c7_checked_size ⟨[], 65536, 65536, 255⟩).1 (Or.inl (by norm_num [U32MAX])),
   (c7_checked_size ⟨[1, 2, 3], 1, 1, 255⟩).2 (by decide)⟩

/-- C8: when the size computation is in range, a stream with fewer than
`width * height * 3 * bytewidth` payload bytes makes `read_image` fail with
`IoError`, while a stream with at least that many bytes succeeds, and any
extra bytes beyond the computed count are left unread and do not affect the
result. -/
theorem c8_exact_consumption (d : PPMDecoder)
    (hs : d.width * d.height * 3 * bytewidth d ≤ U32MAX) :
    (d.reader.length < d.width * d.height * 3 * bytewidth d →
      read_image d = .error .IoError)
    ∧ (d.width * d.height * 3 * bytewidth d ≤ d.reader.length →
      (∃ r, read_image d = .ok r)
      ∧ ∀ extra, read_image ⟨d.reader ++ extra, d.width, d.height, d.maxwhite⟩ =
          read_image d) := by
  refine ⟨fun hl => read_image_short hs hl,
    fun hl => ⟨⟨_, read_image_ok hs hl⟩, fun extra => ?_⟩⟩
  have h2 : read_image ⟨d.reader ++ extra, d.width, d.height, d.maxwhite⟩ =
      .ok (decodePayload ((d.reader ++ extra).take
        (d.width * d.height * 3 * bytewidth d)) (bytewidth d)) := by
    refine read_image_ok hs ?_
    dsimp only
    rw [show bytewidth ⟨d.reader ++ extra, d.width, d.height, d.maxwhite⟩ = bytewidth d from rfl,
      List.length_append]
    omega
  rw [h2, read_image_ok hs hl, List.take_append_of_le_length hl]

/-- C8 (witness): a 2-byte stream for a 3-byte image fails with `IoError`; a
4-byte stream for a 3-byte image succeeds on the first 3 bytes, and appending
trailing bytes does not change the result. -/
theorem c8_exact_consumption_witness :
    read_image ⟨[1, 2], 1, 1, 255⟩ = .error .IoError
    ∧ (∃ r, read_image ⟨[1, 2, 3, 9], 1, 1, 255⟩ = .ok r)
    ∧ read_image ⟨[1, 2, 3] ++ [77, 88], 1, 1, 255⟩ = read_image ⟨[1, 2, 3], 1, 1, 255⟩ :=
  ⟨(c8_exact_consumption ⟨[1, 2], 1, 1, 255⟩ (by decide)).1 (by decide),
   ((c8_exact_consumption ⟨[1, 2, 3, 9], 1, 1, 255⟩ (by decide)).2 (by decide)).1,
   ((c8_exact_consumption ⟨[1, 2, 3], 1, 1, 255⟩ (by decide)).2 (by decide)).2 [77, 88]⟩

/-- C9: for every decoder state, `colortype` returns RGB at bit depth 8 when
the sample width is 1 and RGB at bit depth 16 when the sample width is 2; its
defensive error branch is unreachable because `bytewidth` only ever returns 1
or 2. -/
theorem c9_colortype_total (d : PPMDecoder) :
    (bytewidth d = 1 ∧ colortype d = .ok (ColorType.RGB 8))
    ∨ (bytewidth d = 2 ∧ colortype d = .ok (ColorType.RGB 16)) := by
  rcases bytewidth_cases d with h | h
  · exact Or.inl ⟨h, by unfold colortype; rw [h]⟩
  · exact Or.inr ⟨h, by unfold colortype; rw [h]⟩

/-- C10: a well-formed header whose parsed width or height is 0 constructs a
decoder successfully, and `read_image` on it succeeds with an empty sample
sequence whatever bytes (if any) follow the header. -/
theorem c10_zero_area (s : List Nat) (w h m : Nat) (rest : List Nat)
    (hp : parseN 3 s = .ok ([w, h, m], rest)) (hm : m ≤ 65535) (hz : w = 0 ∨ h = 0) :
    PPMDecoder.new (80 :: 54 :: s) = .ok ⟨rest, w, h, m⟩
    ∧ read_image ⟨rest, w, h, m⟩ =
        .ok (if m < 256 then DecodingResult.U8 [] else DecodingResult.U16 []) := by
  constructor
  · rw [new_of_parseN, hp]
    simp [newCont, hm]
  · rcases hz with rfl | rfl <;> by_cases hm2 : m < 256 <;>
      simp [read_image, bytewidth, hm2, decodePayload, bePairs, U32MAX]

/-- C10 (witness): the stream `"P6 0 1 255 cc"` (zero width, two trailing
bytes) constructs successfully and decodes to an empty 8-bit image. -/
theorem c10_zero_area_witness :
    PPMDecoder.new [80, 54, 32, 48, 32, 49, 32, 50, 53, 53, 32, 99, 99] =
      .ok ⟨[99, 99], 0, 1, 255⟩
    ∧ read_image ⟨[99, 99], 0, 1, 255⟩ = .ok (DecodingResult.U8 []) :=
  c10_zero_area [32, 48, 32, 49, 32, 50, 53, 53, 32, 99, 99] 0 1 255 [99, 99]
    rfl (by omega) (Or.inl rfl)

/-- C1 (amended): for every well-formed `P6` stream — magic, three decimal
tokens each preceded by a gap of whitespace and comments and terminated by
trailing comments plus one whitespace byte, then at least
`width * height * 3 * sampleWidth` payload bytes — **provided additionally
that `width * height * 3 * sampleWidth` is at most `2^32 - 1`** (forced by
the checked `u32` size computation, see the counterexample), construction and
`read_image` succeed, `dimensions` is the parsed pair, and the samples match
the payload bytes: identity for sample width 1, big-endian pairs
`256 * payload[2i] + payload[2i+1]` for sample width 2. -/
theorem c1_wellformed_decode {g1 p1 g2 p2 g3 p3 t1 t2 t3 payload : List Nat}
    {w1 w2 w3 : Nat}
    (hg1 : Gap g1) (hp1 : CGap p1) (hw1 : isWs w1 = true)
    (hg2 : Gap g2) (hp2 : CGap p2) (hw2 : isWs w2 = true)
    (hg3 : Gap g3) (hp3 : CGap p3) (hw3 : isWs w3 = true)
    (ht1 : t1 ≠ []) (hd1 : ∀ b ∈ t1, 48 ≤ b ∧ b ≤ 57) (hv1 : digitsVal t1 ≤ U32MAX)
    (ht2 : t2 ≠ []) (hd2 : ∀ b ∈ t2, 48 ≤ b ∧ b ≤ 57) (hv2 : digitsVal t2 ≤ U32MAX)
    (ht3 : t3 ≠ []) (hd3 : ∀ b ∈ t3, 48 ≤ b ∧ b ≤ 57) (hv3 : digitsVal t3 ≤ U32MAX)
    (hm0 : 0 < digitsVal t3) (hm : digitsVal t3 ≤ 65535)
    (hsize : digitsVal t1 * digitsVal t2 * 3 * (if digitsVal t3 < 256 then 1 else 2) ≤ U32MAX)
    (hpay : digitsVal t1 * digitsVal t2 * 3 * (if digitsVal t3 < 256 then 1 else 2) ≤
      payload.length) :
    ∃ d, PPMDecoder.new (80 :: 54 :: (g1 ++ (t1 ++ (p1 ++ w1 ::
          (g2 ++ (t2 ++ (p2 ++ w2 :: (g3 ++ (t3 ++ (p3 ++ w3 :: payload)))))))))) = .ok d
      ∧ dimensions d = .ok (digitsVal t1, digitsVal t2)
      ∧ d.reader = payload
      ∧ (bytewidth d = 1 →
          read_image d = .ok (.U8 (payload.take (digitsVal t1 * digitsVal t2 * 3))))
      ∧ (bytewidth d = 2 →
          ∃ out, read_image d = .ok (.U16 out)
            ∧ out.length = digitsVal t1 * digitsVal t2 * 3
            ∧ ∀ i, i < digitsVal t1 * digitsVal t2 * 3 →
                out.getD i 0 = 256 * payload.getD (2 * i) 0 + payload.getD (2 * i + 1) 0) := by
  refine ⟨⟨payload, digitsVal t1, digitsVal t2, digitsVal t3⟩,
    new_wellformed hg1 hp1 hw1 hg2 hp2 hw2 hg3 hp3 hw3
      ht1 hd1 hv1 ht2 hd2 hv2 ht3 hd3 hv3 hm, rfl, rfl, ?_, ?_⟩
  · intro hbw
    have hok := @read_image_ok ⟨payload, digitsVal t1, digitsVal t2, digitsVal t3⟩ hsize hpay
    have hif : (if digitsVal t3 < 256 then 1 else 2) = 1 := hbw
    rw [hbw] at hok
    rw [hok]
    rw [hif] at hpay
    dsimp only at hok ⊢
    simp [decodePayload, Nat.mul_one]
  · intro hbw
    have hif : (if digitsVal t3 < 256 then 1 else 2) = 2 := hbw
    have hok := @read_image_ok ⟨payload, digitsVal t1, digitsVal t2, digitsVal t3⟩ hsize hpay
    rw [hbw] at hok
    rw [hif] at hpay
    have hlen : (payload.take (digitsVal t1 * digitsVal t2 * 3 * 2)).length =
        digitsVal t1 * digitsVal t2 * 3 * 2 := by
      rw [List.length_take]
      omega
    refine ⟨bePairs (payload.take (digitsVal t1 * digitsVal t2 * 3 * 2)), ?_, ?_, ?_⟩
    · rw [hok]
      dsimp only
      simp [decodePayload]
    · rw [bePairs_length, hlen]
      omega
    · intro i hi
      rw [bePairs_getD (payload.take (digitsVal t1 * digitsVal t2 * 3 * 2)) i
          (by rw [hlen]; omega),
        getD_take (by omega), getD_take (by omega)]

/-- C1 (witness): the stream `"P6 1#c\n 1 255 "` + 3 payload bytes — with a
comment inside the header — decodes to the single 8-bit pixel `[7, 8, 9]`. -/
theorem c1_wellformed_decode_witness :
    ∃ d, PPMDecoder.new [80, 54, 32, 49, 35, 99, 10, 32, 49, 32, 50, 53, 53, 32, 7, 8, 9] =
          .ok d
      ∧ dimensions d = .ok (1, 1)
      ∧ d.reader = [7, 8, 9]
      ∧ (bytewidth d = 1 → read_image d = .ok (.U8 [7, 8, 9]))
      ∧ (bytewidth d = 2 →
          ∃ out, read_image d = .ok (.U16 out) ∧ out.length = 3
            ∧ ∀ i, i < 3 →
                out.getD i 0 = 256 * [7, 8, 9].getD (2 * i) 0 + [7, 8, 9].getD (2 * i + 1) 0) := by
  have hcb : CommentBlock [35, 99, 10] := ⟨[99], 10, rfl, by decide, Or.inr rfl⟩
  have hp1 : CGap [35, 99, 10] := CGap.comment hcb CGap.nil
  exact @c1_wellformed_decode [32] [35, 99, 10] [] [] [] [] [49] [49] [50, 53, 53]
    [7, 8, 9] 32 32 32
    (Gap.ws rfl Gap.nil) hp1 rfl Gap.nil CGap.nil rfl Gap.nil CGap.nil rfl
    (by decide) (by decide) (by decide)
    (by decide) (by decide) (by decide)
    (by decide) (by decide) (by decide)
    (by decide) (by decide) (by decide) (by decide)

/-- C1 (counterexample): a well-formed stream per the claim — dimensions
2147483648 × 1, maxval 255, and a payload of the full
`width * height * 3 * sampleWidth = 6442450944` bytes — on which construction
succeeds but `read_image` fails with `DimensionError`, because the checked
size computation exceeds the `u32` range.  The claim as stated (decode
succeeds for every such stream) is therefore false. -/
theorem c1_counterexample :
    ∃ d, PPMDecoder.new ([80, 54, 32, 50, 49, 52, 55, 52, 56, 51, 54, 52, 56, 32,
          49, 32, 50, 53, 53, 32] ++ List.replicate 6442450944 0) = .ok d
      ∧ d.width = 2147483648 ∧ d.height = 1 ∧ d.maxwhite = 255
      ∧ d.width * d.height * 3 * bytewidth d ≤ (List.replicate 6442450944 (0 : Nat)).length
      ∧ read_image d = .error .DimensionError := by
  refine ⟨⟨List.replicate 6442450944 0, 2147483648, 1, 255⟩, ?_, rfl, rfl, rfl, ?_, ?_⟩
  · exact @new_wellformed [32] [] [] [] [] [] [50, 49, 52, 55, 52, 56, 51, 54, 52, 56]
      [49] [50, 53, 53] (List.replicate 6442450944 0) 32 32 32
      (Gap.ws rfl Gap.nil) CGap.nil rfl Gap.nil CGap.nil rfl Gap.nil CGap.nil rfl
      (by decide) (by decide) (by decide)
      (by decide) (by decide) (by decide)
      (by decide) (by decide) (by decide)
      (by decide)
  · rw [List.length_replicate]
    norm_num [bytewidth]
  · unfold read_image
    dsimp only
    rw [if_neg (by norm_num [U32MAX]), if_pos (by norm_num [U32MAX])]

/-- C2: deleting a single comment block at any position of the header region
where the comment scanner is in its `Normal` state (`NormalAt 3 u`, covering
all three header reads) leaves the header parse — and hence decoder
construction — unchanged. -/
theorem c2_comment_transparency {u c v : List Nat} (hc : CommentBlock c)
    (hn : NormalAt 3 u) :
    parseN 3 (u ++ (c ++ v)) = parseN 3 (u ++ v)
    ∧ PPMDecoder.new (80 :: 54 :: (u ++ (c ++ v))) =
        PPMDecoder.new (80 :: 54 :: (u ++ v)) := by
  have h := parseN_comment_congr hn hc v
  exact ⟨h, by rw [new_of_parseN, new_of_parseN, h]⟩

/-- C2 (witness): deleting the comment `"#c\n"` from inside the maxval token
of `"P61 1 2#c\n55 "` + payload leaves the parse and construction unchanged. -/
theorem c2_comment_transparency_witness :
    parseN 3 [49, 32, 49, 32, 50, 35, 99, 10, 53, 53, 32, 7, 8, 9] =
      parseN 3 [49, 32, 49, 32, 50, 53, 53, 32, 7, 8, 9]
    ∧ PPMDecoder.new [80, 54, 49, 32, 49, 32, 50, 35, 99, 10, 53, 53, 32, 7, 8, 9] =
        PPMDecoder.new [80, 54, 49, 32, 49, 32, 50, 53, 53, 32, 7, 8, 9] := by
  have hcb : CommentBlock [35, 99, 10] := ⟨[99], 10, rfl, by decide, Or.inr rfl⟩
  have hcall : ∀ z, readTokenLoop true [] ([49, 32] ++ z) = ([49], z) := fun z => rfl
  have n1 : NormalAt 1 [50] := @NormalAt.inProgress 0 [50] [50] rfl
  have n2 : NormalAt 2 [49, 32, 50] := NormalAt.completed hcall n1
  have n3 : NormalAt 3 [49, 32, 49, 32, 50] := NormalAt.completed hcall n2
  exact @c2_comment_transparency [49, 32, 49, 32, 50] [35, 99, 10] [53, 53, 32, 7, 8, 9] hcb n3

/-- C3: replacing a whitespace byte at any position of the header region where
the comment scanner is in its `Normal` state (outside a comment) by any other
of the six whitespace bytes leaves the header parse — and hence decoder
construction — unchanged. -/
theorem c3_whitespace_interchangeable {u v : List Nat} {w w' : Nat}
    (hw : isWs w = true) (hw' : isWs w' = true) (hn : NormalAt 3 u) :
    parseN 3 (u ++ w :: v) = parseN 3 (u ++ w' :: v)
    ∧ PPMDecoder.new (80 :: 54 :: (u ++ w :: v)) =
        PPMDecoder.new (80 :: 54 :: (u ++ w' :: v)) := by
  have h := parseN_ws_congr hn hw hw' v
  exact ⟨h, by rw [new_of_parseN, new_of_parseN, h]⟩

/-- C3 (witness): replacing the final separator SPACE of `"P61 1 255 "` by a
TAB leaves the parse and construction unchanged. -/
theorem c3_whitespace_interchangeable_witness :
    parseN 3 [49, 32, 49, 32, 50, 53, 53, 32, 7, 8, 9] =
      parseN 3 [49, 32, 49, 32, 50, 53, 53, 9, 7, 8, 9]
    ∧ PPMDecoder.new [80, 54, 49, 32, 49, 32, 50, 53, 53, 32, 7, 8, 9] =
        PPMDecoder.new [80, 54, 49, 32, 49, 32, 50, 53, 53, 9, 7, 8, 9] := by
  have hcall : ∀ z, readTokenLoop true [] ([49, 32] ++ z) = ([49], z) := fun z => rfl
  have n1 : NormalAt 1 [50, 53, 53] := @NormalAt.inProgress 0 [50, 53, 53] [50, 53, 53] rfl
  have n2 : NormalAt 2 [49, 32, 50, 53, 53] := NormalAt.completed hcall n1
  have n3 : NormalAt 3 [49, 32, 49, 32, 50, 53, 53] := NormalAt.completed hcall n2
  exact @c3_whitespace_interchangeable [49, 32, 49, 32, 50, 53, 53] [7, 8, 9] 32 9 rfl rfl n3

end PPM
